import Mathlib

/-!
Shallow embedding of `gym_super_mario_bros/smb_env.py`:
the memory decoders, reward components, termination logic, info record,
and the start-screen idle loop of `SuperMarioBrosEnv`.

A RAM snapshot is modelled as a total function from addresses to byte
values; the environment object is a structure holding the RAM reference
together with the mutable instance attributes (`_time_last`,
`last_frame_x_position`, `last_frame_y_position`) and the target fields
set at construction.  Python properties that only read attributes become
plain functions; the ones that assign (`_time_penalty`) become state
transformers returning the updated environment.
-/

namespace SMB

/-- A RAM snapshot: byte-addressable memory, each address holding a byte. -/
def Ram : Type := Nat → Nat

/-- `_STATUS_MAP`: defaultdict mapping the status register to a name,
default `"fireball"`, with overrides `0 ↦ "small"`, `1 ↦ "tall"`. -/
def _STATUS_MAP (v : Nat) : String :=
  if v = 0 then "small" else if v = 1 then "tall" else "fireball"

/-- `_BUSY_STATES`: state values indicating that Mario is "busy". -/
def _BUSY_STATES : List Nat := [0x00, 0x01, 0x02, 0x03, 0x04, 0x05, 0x07]

/-- `_ENEMY_TYPE_ADDRESSES`: RAM addresses for enemy types on the screen. -/
def _ENEMY_TYPE_ADDRESSES : List Nat := [0x0016, 0x0017, 0x0018, 0x0019, 0x001A]

/-- `_STAGE_OVER_ENEMIES`: enemy ids whose context indicates a stage change
(Bowser = 0x2D, Flagpole = 0x31). -/
def _STAGE_OVER_ENEMIES : List Nat := [0x2D, 0x31]

/-- The environment: RAM plus the instance attributes of
`SuperMarioBrosEnv` that the embedded methods read or write. -/
structure Env where
  ram : Ram
  target_world : Option Nat
  target_stage : Option Nat
  target_area : Option Nat
  time_last : Nat
  last_frame_x_position : Nat
  last_frame_y_position : Int

/-- `is_single_stage_env`: `self._target_world is not None and
self._target_area is not None`. -/
def is_single_stage_env (e : Env) : Bool :=
  e.target_world.isSome && e.target_area.isSome

/-- `_read_mem_range`: `int("".join(map(str, self.ram[address:address+length])))`.
Each byte in the range is rendered in decimal, the strings are joined and
the result parsed as an integer.  Parsing a nonempty all-digit string never
fails, so Python's `int` is `String.toNat?` with an (unreachable) default. -/
def _read_mem_range (ram : Ram) (address length : Nat) : Nat :=
  (String.join (((List.range length).map fun i => toString (ram (address + i))))).toNat?.getD 0

/-- `_level`: `self.ram[0x075f] * 4 + self.ram[0x075c]`. -/
def _level (ram : Ram) : Nat := ram 0x075F * 4 + ram 0x075C

/-- `_world`: `int(self.ram[0x075f]) + 1`. -/
def _world (ram : Ram) : Nat := ram 0x075F + 1

/-- `_stage`: `int(self.ram[0x075c]) + 1`. -/
def _stage (ram : Ram) : Nat := ram 0x075C + 1

/-- `_area`: `self.ram[0x0760] + 1`. -/
def _area (ram : Ram) : Nat := ram 0x0760 + 1

/-- `_score`: 6-digit figure at 0x07DE. -/
def _score (ram : Ram) : Nat := _read_mem_range ram 0x07DE 6

/-- `_time`: 3-digit figure at 0x07F8. -/
def _time (ram : Ram) : Nat := _read_mem_range ram 0x07F8 3

/-- `_coins`: 2-digit figure at 0x07ED. -/
def _coins (ram : Ram) : Nat := _read_mem_range ram 0x07ED 2

/-- `_life`: `int(self.ram[0x075a])`. -/
def _life (ram : Ram) : Nat := ram 0x075A

/-- `_x_position`: `int(self.ram[0x6d]) * 0x100 + int(self.ram[0x86])`. -/
def _x_position (ram : Ram) : Nat := ram 0x6D * 0x100 + ram 0x86

/-- `_y_pixel`: `int(self.ram[0x03b8])`. -/
def _y_pixel (ram : Ram) : Nat := ram 0x03B8

/-- `_y_viewport`: `self.ram[0x00b5]`. -/
def _y_viewport (ram : Ram) : Nat := ram 0x00B5

/-- `_y_position`: viewport-keyed signed transform of the pixel byte. -/
def _y_position (ram : Ram) : Int :=
  if _y_viewport ram < 1 then 255 + (255 - (_y_pixel ram : Int))
  else if _y_viewport ram > 1 then -(_y_pixel ram : Int) - 1
  else 255 - (_y_pixel ram : Int)

/-- `_player_status`: `_STATUS_MAP[self.ram[0x0756]]`. -/
def _player_status (ram : Ram) : String := _STATUS_MAP (ram 0x0756)

/-- `_player_state`: `self.ram[0x000e]`. -/
def _player_state (ram : Ram) : Nat := ram 0x000E

/-- `_is_dying`: `self._player_state == 0x0b or self._y_viewport > 1`. -/
def _is_dying (ram : Ram) : Bool :=
  _player_state ram == 0x0B || decide (_y_viewport ram > 1)

/-- `_is_dead`: `self._player_state == 0x06`. -/
def _is_dead (ram : Ram) : Bool := _player_state ram == 0x06

/-- `_is_game_over`: `self._life == 0xff`. -/
def _is_game_over (ram : Ram) : Bool := _life ram == 0xFF

/-- `_is_busy`: `self._player_state in _BUSY_STATES`. -/
def _is_busy (ram : Ram) : Bool := _BUSY_STATES.contains (_player_state ram)

/-- `_is_world_over`: `self.ram[0x0770] == 2`. -/
def _is_world_over (ram : Ram) : Bool := ram 0x0770 == 2

/-- The `for` loop of `_is_stage_over`: scan the enemy-slot addresses and,
at the first slot holding Bowser or the Flagpole, return whether the float
state byte at 0x001D equals 3; return `False` if no slot matches. -/
def stage_over_loop (ram : Ram) : List Nat → Bool
  | [] => false
  | address :: rest =>
    if _STAGE_OVER_ENEMIES.contains (ram address) then ram 0x001D == 3
    else stage_over_loop ram rest

/-- `_is_stage_over`: the loop over `_ENEMY_TYPE_ADDRESSES`. -/
def _is_stage_over (ram : Ram) : Bool := stage_over_loop ram _ENEMY_TYPE_ADDRESSES

/-- `_flag_get`: `self._is_world_over or self._is_stage_over`. -/
def _flag_get (ram : Ram) : Bool := _is_world_over ram || _is_stage_over ram

/-- `_x_reward`: reads `_x_position` and `last_frame_x_position`, assigns
no attribute (the environment is returned unchanged). -/
def _x_reward (e : Env) : Int × Env :=
  let r : Int := (_x_position e.ram : Int) - (e.last_frame_x_position : Int)
  if r < -5 ∨ r > 5 then (0, e) else (r, e)

/-- `_time_penalty`: computes `self._time - self._time_last`, then assigns
`self._time_last = self._time`, then suppresses a positive delta to 0. -/
def _time_penalty (e : Env) : Int × Env :=
  let r : Int := (_time e.ram : Int) - (e.time_last : Int)
  let e' : Env := { e with time_last := _time e.ram }
  if r > 0 then (0, e') else (r, e')

/-- `_death_penalty`: -25 if dying or dead, else 0. -/
def _death_penalty (e : Env) : Int × Env :=
  if _is_dying e.ram || _is_dead e.ram then (-25, e) else (0, e)

/-- `_get_reward`: `self._x_reward + self._time_penalty + self._death_penalty`. -/
def _get_reward (e : Env) : Int × Env :=
  let x := _x_reward e
  let t := _time_penalty x.2
  let d := _death_penalty t.2
  (x.1 + t.1 + d.1, d.2)

/-- `_get_terminated`: in a single-stage environment, dying/dead/flag;
otherwise game over. -/
def _get_terminated (e : Env) : Bool :=
  if is_single_stage_env e then _is_dying e.ram || _is_dead e.ram || _flag_get e.ram
  else _is_game_over e.ram

/-- A value stored in the `info` dict. -/
inductive InfoVal where
  | nat (v : Nat)
  | int (v : Int)
  | bool (v : Bool)
  | str (v : String)
deriving DecidableEq

/-- `_get_info`: the info dict, as the association list built by the
`dict(...)` call, in source order. -/
def _get_info (e : Env) : List (String × InfoVal) :=
  [("coins", InfoVal.nat (_coins e.ram)),
   ("flag_get", InfoVal.bool (_flag_get e.ram)),
   ("life", InfoVal.nat (_life e.ram)),
   ("score", InfoVal.nat (_score e.ram)),
   ("stage", InfoVal.nat (_stage e.ram)),
   ("status", InfoVal.str (_player_status e.ram)),
   ("time", InfoVal.nat (_time e.ram)),
   ("world", InfoVal.nat (_world e.ram)),
   ("x_pos", InfoVal.nat (_x_position e.ram)),
   ("y_pos", InfoVal.int (_y_position e.ram)),
   ("x_speed", InfoVal.int ((_x_position e.ram : Int) - (e.last_frame_x_position : Int))),
   ("y_speed", InfoVal.int (_y_position e.ram - e.last_frame_y_position))]

/-- `step`: records the previous x/y positions from the current RAM, then
delegates to the base class.  Modelled from the spec: `NESEnv.step` is not
part of this repository; per the spec it advances the emulator by one frame
with the action and runs the per-step skip hacks (abstracted here into the
RAM transformer `adv`), then computes reward, terminated and info. -/
def step (adv : Ram → Ram) (e : Env) : Env × Int × Bool × List (String × InfoVal) :=
  let e1 : Env := { e with last_frame_x_position := _x_position e.ram,
                           last_frame_y_position := _y_position e.ram }
  let e2 : Env := { e1 with ram := adv e1.ram }
  let r := _get_reward e2
  (r.2, r.1, _get_terminated r.2, _get_info r.2)

/-- One emulator frame advance: `_frame_advance(input)` as an abstract
transformer of RAM keyed by the controller input bitmap. -/
def FrameAdvance : Type := Nat → Ram → Ram

/-- The idle loop closing `_skip_start_screen` (after time is nonzero):
`while self._time >= self._time_last: self._time_last = self._time;
self._frame_advance(8); self._frame_advance(0)`.  Fuel-bounded; besides
the loop's result (final RAM and final `_time_last`) it returns the trace
of controller inputs passed to `_frame_advance`. -/
def skip_idle_loop (adv : FrameAdvance) : Nat → Ram → Nat → Option (Ram × Nat) × List Nat
  | 0, _, _ => (none, [])
  | fuel + 1, ram, time_last =>
    if _time ram ≥ time_last then
      ((skip_idle_loop adv fuel (adv 0 (adv 8 ram)) (_time ram)).1,
        8 :: 0 :: (skip_idle_loop adv fuel (adv 0 (adv 8 ram)) (_time ram)).2)
    else
      (some (ram, time_last), [])

/-- Entry into the idle loop: `self._time_last = self._time` and then the
`while` loop above. -/
def skip_start_idle (adv : FrameAdvance) (fuel : Nat) (ram : Ram) :
    Option (Ram × Nat) × List Nat :=
  skip_idle_loop adv fuel ram (_time ram)

/-! ### Decimal-string decoding helpers

`_read_mem_range` renders each byte with `str` and parses the
concatenation; these lemmas reduce that to arithmetic when every byte in
the range is a single decimal digit. -/

theorem toString_digit (d : Nat) (h : d ≤ 9) : (toString d).data = [Nat.digitChar d] := by
  interval_cases d <;> rfl

theorem digitChar_isDigit (d : Nat) (h : d ≤ 9) : (Nat.digitChar d).isDigit = true := by
  interval_cases d <;> rfl

theorem digitChar_toNat (d : Nat) (h : d ≤ 9) : (Nat.digitChar d).toNat = 48 + d := by
  interval_cases d <;> rfl

theorem flatten_singletons {α β : Type} (f : α → β) (l : List α) :
    (l.map fun d => [f d]).flatten = l.map f := by
  induction l with
  | nil => rfl
  | cons a t ih => simp [ih]

theorem join_digits_data (l : List Nat) (h : ∀ d ∈ l, d ≤ 9) :
    (String.join (l.map toString)).data = l.map Nat.digitChar := by
  rw [String.data_join, List.map_map]
  have h1 : l.map (String.data ∘ toString) = l.map fun d => [Nat.digitChar d] := by
    apply List.map_congr_left
    intro d hd
    exact toString_digit d (h d hd)
  rw [h1, flatten_singletons]

theorem join_digits_toNat (l : List Nat) (hne : l ≠ []) (h : ∀ d ∈ l, d ≤ 9) :
    (String.join (l.map toString)).toNat? =
      some (l.foldl (fun a d => a * 10 + d) 0) := by
  have hdata := join_digits_data l h
  have hne' : String.join (l.map toString) ≠ "" := by
    intro hs
    have hd : (String.join (l.map toString)).data = [] := congrArg String.data hs
    rw [hdata] at hd
    exact hne (List.map_eq_nil_iff.mp hd)
  have hempty : (String.join (l.map toString)).isEmpty = false := by
    rw [Bool.eq_false_iff]
    intro hb
    exact hne' ((String.isEmpty_iff _).mp hb)
  have hall : (String.join (l.map toString)).all (·.isDigit) = true := by
    rw [String.all_eq]
    show ((String.join (l.map toString)).data.all _) = true
    rw [hdata, List.all_eq_true]
    intro c hc
    obtain ⟨d, hd, rfl⟩ := List.mem_map.mp hc
    exact digitChar_isDigit d (h d hd)
  have hnat : (String.join (l.map toString)).isNat = true := by
    rw [String.isNat, hempty, hall]
    rfl
  rw [String.toNat?, if_pos hnat]
  congr 1
  rw [String.foldl_eq]
  show ((String.join (l.map toString)).data.foldl _ 0) = _
  rw [hdata, List.foldl_map]
  apply List.foldl_ext
  intro a d hd
  rw [digitChar_toNat d (h d hd)]
  have h0 : ('0' : Char).toNat = 48 := rfl
  rw [h0]
  omega

theorem read_mem_range_digits (ram : Ram) (address n : Nat) (hn : n ≠ 0)
    (h : ∀ i, i < n → ram (address + i) ≤ 9) :
    _read_mem_range ram address n =
      ((List.range n).map fun i => ram (address + i)).foldl (fun a d => a * 10 + d) 0 := by
  have hmap : ((List.range n).map fun i => toString (ram (address + i)))
      = ((List.range n).map fun i => ram (address + i)).map toString := by
    rw [List.map_map]
    rfl
  have hne : ((List.range n).map fun i => ram (address + i)) ≠ [] := by
    simp [List.range_eq_nil, hn]
  have hdig : ∀ d ∈ (List.range n).map fun i => ram (address + i), d ≤ 9 := by
    intro d hd
    obtain ⟨i, hi, rfl⟩ := List.mem_map.mp hd
    exact h i (List.mem_range.mp hi)
  rw [_read_mem_range, hmap, join_digits_toNat _ hne hdig]
  rfl

theorem time_digits (ram : Ram) (h : ∀ i, i < 3 → ram (0x07F8 + i) ≤ 9) :
    _time ram = ram 0x07F8 * 100 + ram 0x07F9 * 10 + ram 0x07FA := by
  rw [_time, read_mem_range_digits ram 0x07F8 3 (by decide) h]
  have h3 : List.range 3 = [0, 1, 2] := rfl
  rw [h3]
  simp only [List.map_cons, List.map_nil, List.foldl_cons, List.foldl_nil]
  norm_num
  ring

theorem coins_digits (ram : Ram) (h : ∀ i, i < 2 → ram (0x07ED + i) ≤ 9) :
    _coins ram = ram 0x07ED * 10 + ram 0x07EE := by
  rw [_coins, read_mem_range_digits ram 0x07ED 2 (by decide) h]
  have h2 : List.range 2 = [0, 1] := rfl
  rw [h2]
  simp only [List.map_cons, List.map_nil, List.foldl_cons, List.foldl_nil]
  norm_num

theorem score_digits (ram : Ram) (h : ∀ i, i < 6 → ram (0x07DE + i) ≤ 9) :
    _score ram = ram 0x07DE * 100000 + ram 0x07DF * 10000 + ram 0x07E0 * 1000 +
      ram 0x07E1 * 100 + ram 0x07E2 * 10 + ram 0x07E3 := by
  rw [_score, read_mem_range_digits ram 0x07DE 6 (by decide) h]
  have h6 : List.range 6 = [0, 1, 2, 3, 4, 5] := rfl
  rw [h6]
  simp only [List.map_cons, List.map_nil, List.foldl_cons, List.foldl_nil]
  norm_num
  ring

/-! ### Environment-threading helpers -/

theorem x_reward_env (e : Env) : (_x_reward e).2 = e := by
  simp only [_x_reward]
  split <;> rfl

theorem time_penalty_env (e : Env) :
    (_time_penalty e).2 = { e with time_last := _time e.ram } := by
  simp only [_time_penalty]
  split <;> rfl

theorem death_penalty_env (e : Env) : (_death_penalty e).2 = e := by
  simp only [_death_penalty]
  split <;> rfl

theorem get_reward_env (e : Env) :
    (_get_reward e).2 = { e with time_last := _time e.ram } := by
  simp only [_get_reward]
  rw [x_reward_env, time_penalty_env, death_penalty_env]

/-- Membership in the Bowser/Flagpole id list, as a disjunction. -/
theorem stage_enemy_mem (x : Nat) :
    _STAGE_OVER_ENEMIES.contains x = true ↔ x = 0x2D ∨ x = 0x31 := by
  simp [_STAGE_OVER_ENEMIES]

/-- The scan loop of `_is_stage_over` is the existence of a Bowser/Flagpole
slot conjoined with the float-state check. -/
theorem stage_over_loop_iff (ram : Ram) (l : List Nat) :
    stage_over_loop ram l = true ↔
      (∃ a ∈ l, ram a = 0x2D ∨ ram a = 0x31) ∧ ram 0x001D = 3 := by
  induction l with
  | nil => simp [stage_over_loop]
  | cons a t ih =>
    rw [stage_over_loop]
    by_cases hc : _STAGE_OVER_ENEMIES.contains (ram a) = true
    · rw [if_pos hc]
      have hm := (stage_enemy_mem (ram a)).mp hc
      simp only [beq_iff_eq]
      constructor
      · intro h3
        exact ⟨⟨a, List.mem_cons_self a t, hm⟩, h3⟩
      · intro h
        exact h.2
    · rw [if_neg hc, ih]
      have hm : ¬(ram a = 0x2D ∨ ram a = 0x31) := fun h => hc ((stage_enemy_mem (ram a)).mpr h)
      constructor
      · intro h
        obtain ⟨⟨b, hb, hbv⟩, h3⟩ := h
        exact ⟨⟨b, List.mem_cons_of_mem a hb, hbv⟩, h3⟩
      · intro h
        obtain ⟨⟨b, hb, hbv⟩, h3⟩ := h
        rcases List.mem_cons.mp hb with hba | hbt
        · exact absurd (hba ▸ hbv) hm
        · exact ⟨⟨b, hbt, hbv⟩, h3⟩

/-! ### Concrete states used as witnesses and counterexamples -/

/-- All-zero RAM. -/
def ramZero : Ram := fun _ => 0

/-- RAM with a given viewport byte and pixel byte. -/
def ramYP (v p : Nat) : Ram := fun a => if a = 0x00B5 then v else if a = 0x03B8 then p else 0

/-- RAM with the Flagpole id in the first enemy slot and float state 3. -/
def ramFlag : Ram := fun a => if a = 0x0016 then 0x31 else if a = 0x001D then 3 else 0

/-- RAM with float state 3 (vine climb) and no Bowser/Flagpole slot. -/
def ramVine : Ram := fun a => if a = 0x001D then 3 else 0

/-- RAM whose time digits read 0, 0, 5 (time 5). -/
def ramTime5 : Ram := fun a => if a = 0x07FA then 5 else 0

/-- RAM with every byte 5 (time 555). -/
def ramFives : Ram := fun _ => 5

/-- RAM with every byte 4 (time 444). -/
def ramFours : Ram := fun _ => 4

/-- RAM with every byte 9 (score 999999). -/
def ramNines : Ram := fun _ => 9

/-- RAM with every byte 10: a non-digit byte in every counter range. -/
def ramTens : Ram := fun _ => 10

/-- RAM whose byte at each address is the address mod 10. -/
def ramMod : Ram := fun a => a % 10

/-- A single-stage environment over all-zero RAM. -/
def envSingle : Env :=
  { ram := ramZero, target_world := some 1, target_stage := some 1, target_area := some 1,
    time_last := 0, last_frame_x_position := 0, last_frame_y_position := 0 }

/-- A full-game environment whose RAM decodes time 5 with stored previous
time 7. -/
def envTime : Env :=
  { ram := ramTime5, target_world := none, target_stage := none, target_area := none,
    time_last := 7, last_frame_x_position := 0, last_frame_y_position := 0 }

theorem time_ramTime5 : _time ramTime5 = 5 := by
  rw [time_digits ramTime5 (by decide)]
  rfl

theorem time_ramFives : _time ramFives = 555 := by
  rw [time_digits ramFives (by decide)]
  rfl

theorem time_ramFours : _time ramFours = 444 := by
  rw [time_digits ramFours (by decide)]
  rfl

theorem score_ramNines : _score ramNines = 999999 := by
  rw [score_digits ramNines (by decide)]
  rfl

/-! ### Claim theorems -/

/-- C1: in single-stage mode (target world and area configured) the
terminated flag is `is_dying or is_dead or flag_get`; in full-game mode
(no target configured) it is `is_game_over`, the lives byte being 0xFF. -/
theorem get_terminated_modes (e : Env) :
    (e.target_world.isSome = true ∧ e.target_area.isSome = true →
      _get_terminated e = (_is_dying e.ram || _is_dead e.ram || _flag_get e.ram)) ∧
    (e.target_world = none ∧ e.target_stage = none ∧ e.target_area = none →
      _get_terminated e = _is_game_over e.ram) ∧
    (_is_game_over e.ram = true ↔ _life e.ram = 0xFF) := by
  refine ⟨?_, ?_, ?_⟩
  · intro h
    rw [_get_terminated, if_pos]
    simp [is_single_stage_env, h.1, h.2]
  · intro h
    rw [_get_terminated, if_neg]
    rw [is_single_stage_env, h.1, h.2.2]
    simp
  · rw [_is_game_over]
    exact beq_iff_eq

/-- C1 witness: a configured single-stage environment terminates via the
dying/dead/flag disjunction. -/
theorem get_terminated_modes_witness :
    (envSingle.target_world.isSome = true ∧ envSingle.target_area.isSome = true) ∧
      _get_terminated envSingle =
        (_is_dying envSingle.ram || _is_dead envSingle.ram || _flag_get envSingle.ram) :=
  ⟨⟨rfl, rfl⟩, (get_terminated_modes envSingle).1 ⟨rfl, rfl⟩⟩

/-- C2: the time penalty is the raw time delta clipped at 0 from above, is
never positive, and stores the current time as the new previous time on
every evaluation. -/
theorem time_penalty_spec (e : Env) :
    ((_time_penalty e).1 =
      if 0 < (_time e.ram : Int) - (e.time_last : Int) then 0
      else (_time e.ram : Int) - (e.time_last : Int)) ∧
    (_time_penalty e).1 ≤ 0 ∧
    (_time_penalty e).2.time_last = _time e.ram := by
  refine ⟨?_, ?_, ?_⟩
  · simp only [_time_penalty]
    split <;> rfl
  · simp only [_time_penalty]
    split
    · norm_num
    · rename_i h
      omega
  · simp only [_time_penalty]
    split <;> rfl

/-- C3: the x-delta reward equals the raw delta when its absolute value is
at most 5, and 0 when the absolute value exceeds 5. -/
theorem x_reward_clip (e : Env) :
    (_x_reward e).1 =
      if 5 < |(_x_position e.ram : Int) - (e.last_frame_x_position : Int)| then 0
      else (_x_position e.ram : Int) - (e.last_frame_x_position : Int) := by
  simp only [_x_reward]
  split
  · rename_i h
    rw [if_pos]
    rcases h with h | h
    · calc (5 : Int) < -((_x_position e.ram : Int) - (e.last_frame_x_position : Int)) := by omega
        _ ≤ |(_x_position e.ram : Int) - (e.last_frame_x_position : Int)| := neg_le_abs _
    · calc (5 : Int) < (_x_position e.ram : Int) - (e.last_frame_x_position : Int) := h
        _ ≤ |(_x_position e.ram : Int) - (e.last_frame_x_position : Int)| := le_abs_self _
  · rename_i h
    push_neg at h
    rw [if_neg]
    rw [not_lt, abs_le]
    omega

/-- C4: the decoded vertical position is 255 + (255 − pixel) when the
viewport byte is below 1, −pixel − 1 when it is above 1, and 255 − pixel
when it equals 1; in particular (0, 10) ↦ 500, (2, 10) ↦ −11, (1, 10) ↦ 245. -/
theorem y_position_decode :
    (∀ ram : Ram,
      (_y_viewport ram < 1 → _y_position ram = 255 + (255 - (_y_pixel ram : Int))) ∧
      (_y_viewport ram > 1 → _y_position ram = -(_y_pixel ram : Int) - 1) ∧
      (_y_viewport ram = 1 → _y_position ram = 255 - (_y_pixel ram : Int))) ∧
    _y_position (ramYP 0 10) = 500 ∧
    _y_position (ramYP 2 10) = -11 ∧
    _y_position (ramYP 1 10) = 245 := by
  refine ⟨fun ram => ⟨?_, ?_, ?_⟩, by decide, by decide, by decide⟩
  · intro h
    rw [_y_position, if_pos h]
  · intro h
    rw [_y_position, if_neg (by omega), if_pos h]
  · intro h
    rw [_y_position, if_neg (by omega), if_neg (by omega)]

/-- C4 witness: the above-viewport case applied at viewport 0, pixel 10. -/
theorem y_position_decode_witness :
    _y_viewport (ramYP 0 10) < 1 ∧
      _y_position (ramYP 0 10) = 255 + (255 - (_y_pixel (ramYP 0 10) : Int)) :=
  ⟨by decide, (y_position_decode.1 (ramYP 0 10)).1 (by decide)⟩

/-- C5: the stage is over exactly when one of the five enemy-slot bytes
holds Bowser (0x2D) or the Flagpole (0x31) and the float-state byte at
0x001D equals 3; a Flagpole slot with float state 3 yields true, while
float state 3 alone (vine climb) yields false. -/
theorem is_stage_over_scan :
    (∀ ram : Ram, _is_stage_over ram = true ↔
      (∃ a ∈ _ENEMY_TYPE_ADDRESSES, ram a = 0x2D ∨ ram a = 0x31) ∧ ram 0x001D = 3) ∧
    _is_stage_over ramFlag = true ∧
    _is_stage_over ramVine = false := by
  refine ⟨fun ram => ?_, by decide, by decide⟩
  rw [_is_stage_over]
  exact stage_over_loop_iff ram _ENEMY_TYPE_ADDRESSES

/-- C5 witness: the characterization applied at the Flagpole state. -/
theorem is_stage_over_scan_witness : _is_stage_over ramFlag = true :=
  (is_stage_over_scan.1 ramFlag).mpr ⟨⟨0x0016, by decide, by decide⟩, by decide⟩

/-- C10: evaluating the x-delta reward leaves the environment unchanged, so
two consecutive evaluations agree; evaluating the time penalty twice on a
state with stored previous time 7 and current time 5 returns −2 and then 0. -/
theorem x_reward_stateless :
    (∀ e : Env, (_x_reward e).2 = e ∧
      (_x_reward ((_x_reward e).2)).1 = (_x_reward e).1) ∧
    (_time_penalty envTime).1 = -2 ∧
    (_time_penalty ((_time_penalty envTime).2)).1 = 0 := by
  refine ⟨fun e => ⟨x_reward_env e, by rw [x_reward_env]⟩, ?_, ?_⟩
  · simp [_time_penalty, envTime, time_ramTime5]
  · rw [time_penalty_env]
    simp [_time_penalty, envTime, time_ramTime5]

/-! ### Evaluation with a non-digit byte -/

theorem toNat_101010 : ("101010" : String).toNat? = some 101010 := by
  have hnat : ("101010" : String).isNat = true := by
    rw [String.isNat, String.all_eq]
    rfl
  rw [String.toNat?, if_pos hnat]
  congr 1
  rw [String.foldl_eq]
  rfl

theorem time_ramTens : _time ramTens = 101010 := by
  have hj : String.join (((List.range 3).map fun i => toString (ramTens (0x07F8 + i))))
      = "101010" := rfl
  rw [_time, _read_mem_range, hj, toNat_101010]
  rfl

/-- C6: under the one-decimal-digit-per-byte encoding, each counter decodes
to the positional sum of its digits: score over 6 bytes at 0x07DE, time
over 3 bytes at 0x07F8, coins over 2 bytes at 0x07ED. -/
theorem counters_digit_decode (ram : Ram) :
    ((∀ i, i < 6 → ram (0x07DE + i) ≤ 9) →
      _score ram = ram 0x07DE * 10 ^ 5 + ram 0x07DF * 10 ^ 4 + ram 0x07E0 * 10 ^ 3 +
        ram 0x07E1 * 10 ^ 2 + ram 0x07E2 * 10 ^ 1 + ram 0x07E3 * 10 ^ 0) ∧
    ((∀ i, i < 3 → ram (0x07F8 + i) ≤ 9) →
      _time ram = ram 0x07F8 * 10 ^ 2 + ram 0x07F9 * 10 ^ 1 + ram 0x07FA * 10 ^ 0) ∧
    ((∀ i, i < 2 → ram (0x07ED + i) ≤ 9) →
      _coins ram = ram 0x07ED * 10 ^ 1 + ram 0x07EE * 10 ^ 0) := by
  refine ⟨fun h => ?_, fun h => ?_, fun h => ?_⟩
  · rw [score_digits ram h]
    norm_num
  · rw [time_digits ram h]
    norm_num
  · rw [coins_digits ram h]
    norm_num

/-- C6 witness: the time decode applied to the RAM holding address mod 10
at each address. -/
theorem counters_digit_decode_witness :
    (∀ i, i < 3 → ramMod (0x07F8 + i) ≤ 9) ∧
      _time ramMod = ramMod 0x07F8 * 10 ^ 2 + ramMod 0x07F9 * 10 ^ 1 + ramMod 0x07FA * 10 ^ 0 :=
  ⟨by decide, (counters_digit_decode ramMod).2.1 (by decide)⟩

/-- C9 counterexample: with every score byte 9 the digit hypothesis holds
yet the decoded score is 999999, above the claimed maximum 999990. -/
theorem counter_bound_counterexample :
    ¬ ∀ ram : Ram, (∀ i, i < 6 → ram (0x07DE + i) ≤ 9) → _score ram ≤ 999990 := by
  intro hcl
  have h := hcl ramNines (by decide)
  rw [score_ramNines] at h
  omega

/-- C9 amended: when every byte of a counter range is a decimal digit the
decoded value is below 10^N (time at most 999, coins at most 99, score at
most 999999); a byte above 9 can push the value past the documented
maxima (every byte 10 decodes time to 101010 > 999). -/
theorem counters_digit_bounds :
    (∀ ram : Ram,
      ((∀ i, i < 3 → ram (0x07F8 + i) ≤ 9) → _time ram < 10 ^ 3) ∧
      ((∀ i, i < 2 → ram (0x07ED + i) ≤ 9) → _coins ram < 10 ^ 2) ∧
      ((∀ i, i < 6 → ram (0x07DE + i) ≤ 9) → _score ram < 10 ^ 6)) ∧
    999 < _time ramTens := by
  constructor
  · intro ram
    refine ⟨fun h => ?_, fun h => ?_, fun h => ?_⟩
    · rw [time_digits ram h]
      have h0 := h 0 (by norm_num)
      have h1 := h 1 (by norm_num)
      have h2 := h 2 (by norm_num)
      norm_num at h0 h1 h2 ⊢
      omega
    · rw [coins_digits ram h]
      have h0 := h 0 (by norm_num)
      have h1 := h 1 (by norm_num)
      norm_num at h0 h1 ⊢
      omega
    · rw [score_digits ram h]
      have h0 := h 0 (by norm_num)
      have h1 := h 1 (by norm_num)
      have h2 := h 2 (by norm_num)
      have h3 := h 3 (by norm_num)
      have h4 := h 4 (by norm_num)
      have h5 := h 5 (by norm_num)
      norm_num at h0 h1 h2 h3 h4 h5 ⊢
      omega
  · rw [time_ramTens]
    norm_num

/-- C9 witness: the time bound applied to the all-fives RAM. -/
theorem counters_digit_bounds_witness :
    (∀ i, i < 3 → ramFives (0x07F8 + i) ≤ 9) ∧ _time ramFives < 10 ^ 3 :=
  ⟨by decide, ((counters_digit_bounds.1 ramFives).1 (by decide))⟩

/-! ### The start-screen idle loop on a concrete emulator -/

/-- A frame-advance model: a release frame (input 0) jumps to the
all-fours RAM; any other input leaves RAM unchanged. -/
def advC7 : FrameAdvance := fun input _ram => if input = 0 then ramFours else _ram

theorem skip_idle_run :
    skip_idle_loop advC7 2 ramFives 555 = (some (ramFours, 555), [8, 0]) := by
  have ha : advC7 0 (advC7 8 ramFives) = ramFours := rfl
  have hstep2 : skip_idle_loop advC7 1 ramFours 555 = (some (ramFours, 555), []) := by
    rw [show (1 : Nat) = 0 + 1 from rfl, skip_idle_loop, if_neg]
    rw [time_ramFours]
    omega
  rw [show (2 : Nat) = 1 + 1 from rfl, skip_idle_loop, if_pos time_ramFives.ge, ha,
    time_ramFives, hstep2]

/-- C7 counterexample: on an emulator where the release frame drops the
time from 555 to 444, the idle phase advances frames with inputs 8 then 0;
input 8 presses Start, so the phase does not use only no-op input. -/
theorem skip_idle_not_noop :
    (skip_start_idle advC7 2 ramFives).2 = [8, 0] ∧ (8 : Nat) ≠ 0 := by
  constructor
  · rw [skip_start_idle, time_ramFives, skip_idle_run]
  · decide

/-- C7 amended: the idle phase advances pairs of frames with Start pressed
then released (inputs 8 then 0) exactly while the decoded time is at least
the previously observed value; when it stops, the stored previous-time
baseline is the last observed value, which strictly exceeds the decoded
time at the end of the phase. -/
theorem skip_idle_loop_spec (adv : FrameAdvance) (fuel : Nat) (ram : Ram) (t : Nat) :
    (∀ p, (skip_idle_loop adv fuel ram t).1 = some p → _time p.1 < p.2) ∧
    (∃ k, (skip_idle_loop adv fuel ram t).2 = (List.replicate k ([8, 0] : List Nat)).flatten) := by
  induction fuel generalizing ram t with
  | zero =>
    refine ⟨fun p hp => ?_, ⟨0, rfl⟩⟩
    rw [skip_idle_loop] at hp
    exact absurd hp (by simp)
  | succ n ih =>
    by_cases hc : _time ram ≥ t
    · have hrec := ih (adv 0 (adv 8 ram)) (_time ram)
      refine ⟨fun p hp => ?_, ?_⟩
      · rw [skip_idle_loop, if_pos hc] at hp
        exact hrec.1 p hp
      · obtain ⟨k, hk⟩ := hrec.2
        refine ⟨k + 1, ?_⟩
        rw [skip_idle_loop, if_pos hc]
        simp only [List.replicate_succ, List.flatten_cons]
        rw [hk]
        rfl
    · refine ⟨fun p hp => ?_, ⟨0, ?_⟩⟩
      · rw [skip_idle_loop, if_neg hc] at hp
        have hpe : p = (ram, t) := (Option.some.inj hp).symm
        rw [hpe]
        exact Nat.lt_of_not_le hc
      · rw [skip_idle_loop, if_neg hc]
        rfl

/-- C7 witness: the exit property of the idle loop on the concrete run. -/
theorem skip_idle_loop_spec_witness : _time ramFours < 555 :=
  (skip_idle_loop_spec advC7 2 ramFives 555).1 (ramFours, 555) (by rw [skip_idle_run])

/-- C8: after a step the info mapping carries exactly the twelve documented
keys, with x_speed the post-step x position minus the x position recorded
before the step, and y_speed likewise for the vertical position. -/
theorem step_info_keys_speeds (adv : Ram → Ram) (e : Env) :
    ((step adv e).2.2.2.map Prod.fst =
      ["coins", "flag_get", "life", "score", "stage", "status", "time", "world",
        "x_pos", "y_pos", "x_speed", "y_speed"]) ∧
    ((step adv e).2.2.2.map Prod.fst).Nodup ∧
    (step adv e).2.2.2.lookup "x_speed" =
      some (InfoVal.int ((_x_position (adv e.ram) : Int) - (_x_position e.ram : Int))) ∧
    (step adv e).2.2.2.lookup "y_speed" =
      some (InfoVal.int (_y_position (adv e.ram) - _y_position e.ram)) := by
  have hinfo : (step adv e).2.2.2 = _get_info
      { ram := adv e.ram, target_world := e.target_world, target_stage := e.target_stage,
        target_area := e.target_area, time_last := _time (adv e.ram),
        last_frame_x_position := _x_position e.ram,
        last_frame_y_position := _y_position e.ram } := by
    simp only [step]
    rw [get_reward_env]
  have hkeys : (step adv e).2.2.2.map Prod.fst =
      ["coins", "flag_get", "life", "score", "stage", "status", "time", "world",
        "x_pos", "y_pos", "x_speed", "y_speed"] := by
    rw [hinfo]
    rfl
  refine ⟨hkeys, ?_, ?_, ?_⟩
  · rw [hkeys]
    decide
  · rw [hinfo]
    rfl
  · rw [hinfo]
    rfl

end SMB
